import Mathlib

/-!
# Ghost Protocol ESP32 firmware: configuration header and mimicry engine

A shallow embedding of `esp32-firmware/config.h` (the integer macros, the
network-selection macros and the four `#ifdef` endpoint tables), followed by
the engine contracts of the design document that consume those constants.

C `int` values are embedded as `Int`; C string literals as `String`;
a C array initialiser as a `List` in textual order.
-/

namespace GhostProtocol

/-! ## config.h, integer macros -/

/-- Line 18: `#define WIFI_TIMEOUT 30000`. -/
def WIFI_TIMEOUT : Int := 30000

/-- Line 33: `#define HEARTBEAT_INTERVAL_MIN 5000`. -/
def HEARTBEAT_INTERVAL_MIN : Int := 5000

/-- Line 34: `#define HEARTBEAT_INTERVAL_MAX 45000`. -/
def HEARTBEAT_INTERVAL_MAX : Int := 45000

/-- Line 37: `#define STORM_INTENSITY_MIN 30`. -/
def STORM_INTENSITY_MIN : Int := 30

/-- Line 38: `#define STORM_INTENSITY_MAX 80`. -/
def STORM_INTENSITY_MAX : Int := 80

/-- Line 39: `#define STORM_DURATION_MIN 2000`. -/
def STORM_DURATION_MIN : Int := 2000

/-- Line 40: `#define STORM_DURATION_MAX 8000`. -/
def STORM_DURATION_MAX : Int := 8000

/-- Line 41: `#define STORM_PROBABILITY 30`. -/
def STORM_PROBABILITY : Int := 30

/-- Line 44: `#define NOISE_RATIO_TARGET 50`. -/
def NOISE_RATIO_TARGET : Int := 50

/-- Line 45: `#define MIN_DECOYS_PER_REAL_TX 50`. -/
def MIN_DECOYS_PER_REAL_TX : Int := 50

/-- Line 113: `#define HTTP_TIMEOUT 10000`. -/
def HTTP_TIMEOUT : Int := 10000

/-- Line 116: `#define MAX_RETRY_ATTEMPTS 3`. -/
def MAX_RETRY_ATTEMPTS : Int := 3

/-- Line 119: `#define MAX_CONCURRENT_REQUESTS 5`. -/
def MAX_CONCURRENT_REQUESTS : Int := 5

/-- Line 120: `#define JSON_BUFFER_SIZE 512`. -/
def JSON_BUFFER_SIZE : Int := 512

/-- Smallest value of a 32-bit signed `int`. -/
def INT32_MIN : Int := -(2 ^ 31)

/-- Largest value of a 32-bit signed `int`. -/
def INT32_MAX : Int := 2 ^ 31 - 1

/-! ## config.h, network selection (lines 24-27) and endpoint tables (lines 69-107) -/

/-- The four network-selection macro names tested by the `#ifdef` blocks. -/
inductive NetworkMacro where
  | NETWORK_SEPOLIA
  | NETWORK_GOERLI
  | NETWORK_MUMBAI
  | NETWORK_BSC_TESTNET
  deriving DecidableEq, Repr

/-- Lines 24-27: line 24 is a live `#define NETWORK_SEPOLIA`; lines 25-27 are
commented out, so the other three macros are not defined. -/
def isDefined : NetworkMacro → Bool
  | .NETWORK_SEPOLIA => true
  | .NETWORK_GOERLI => false
  | .NETWORK_MUMBAI => false
  | .NETWORK_BSC_TESTNET => false

/-- The initialiser of `const char* RPC_ENDPOINTS[]` inside each `#ifdef`
block (lines 70-75, 81-85, 91-95, 101-105), in textual order. -/
def RPC_ENDPOINTS : NetworkMacro → List String
  | .NETWORK_SEPOLIA =>
    ["https://rpc.sepolia.org",
     "https://ethereum-sepolia.publicnode.com",
     "https://rpc2.sepolia.org",
     "https://sepolia.gateway.tenderly.co"]
  | .NETWORK_GOERLI =>
    ["https://ethereum-goerli.publicnode.com",
     "https://goerli.gateway.tenderly.co",
     "https://rpc.goerli.eth.gateway.fm"]
  | .NETWORK_MUMBAI =>
    ["https://rpc-mumbai.maticvigil.com",
     "https://polygon-mumbai.gateway.tenderly.co",
     "https://polygon-mumbai-bor.publicnode.com"]
  | .NETWORK_BSC_TESTNET =>
    ["https://data-seed-prebsc-1-s1.binance.org:8545",
     "https://bsc-testnet.publicnode.com",
     "https://bsc-testnet.gateway.tenderly.co"]

/-- The `const int RPC_ENDPOINT_COUNT` of each `#ifdef` block
(lines 76, 86, 96, 106). -/
def RPC_ENDPOINT_COUNT : NetworkMacro → Int
  | .NETWORK_SEPOLIA => 4
  | .NETWORK_GOERLI => 3
  | .NETWORK_MUMBAI => 3
  | .NETWORK_BSC_TESTNET => 3

/-- The `#ifdef` blocks of lines 69-107 in the order they appear in the file. -/
def ifdefBlocks : List NetworkMacro :=
  [.NETWORK_SEPOLIA, .NETWORK_GOERLI, .NETWORK_MUMBAI, .NETWORK_BSC_TESTNET]

/-- What the preprocessor leaves of lines 69-107: one definition of
`RPC_ENDPOINTS` and `RPC_ENDPOINT_COUNT` for every block whose macro is defined. -/
def emittedDefinitions : List (List String × Int) :=
  (ifdefBlocks.filter isDefined).map fun m => (RPC_ENDPOINTS m, RPC_ENDPOINT_COUNT m)

/-- `RPC_ENDPOINTS[i]` for a C `int` index: `none` when the access is out of
the array's bounds. -/
def endpointAt (m : NetworkMacro) (i : Int) : Option String :=
  if 0 ≤ i then (RPC_ENDPOINTS m)[i.toNat]? else none

/-! ## Decoy Generator (design document, section 4.1) -/

/-- Modelled from the spec: `nextHeartbeatDelay()` of the Decoy Generator, which
is not part of config.h. Section 4.1 only fixes its contract, a value drawn
uniformly from `[HEARTBEAT_MIN, HEARTBEAT_MAX]`; the draw is embedded as the
reduction of a raw random word `r` into that inclusive range, so that every
residue (hence every delay of the range) is hit by the same share of words. -/
def nextHeartbeatDelay (r : Nat) : Int :=
  HEARTBEAT_INTERVAL_MIN + (r : Int) % (HEARTBEAT_INTERVAL_MAX - HEARTBEAT_INTERVAL_MIN + 1)

/-! ## Anonymization Gate and Mimicry Controller (sections 3, 4.2, 4.5) -/

/-- Modelled from the spec: the DecoyBudgetCounter of section 3,
`{decoys_sent_since_reset: integer >= 0, target: integer}`. -/
structure DecoyBudgetCounter where
  decoys_sent_since_reset : Nat
  target : Int
  deriving DecidableEq, Repr

/-- Modelled from the spec: a real transaction queued in the pending state by
`submitReal`, with the handle returned to the caller and its own live counter
(section 3: one live instance per pending real transaction). -/
structure PendingReal where
  handle : Nat
  payload : String
  counter : DecoyBudgetCounter
  deriving DecidableEq, Repr

/-- Modelled from the spec: the Anonymization Gate of section 4.2; `pending`
is the FIFO queue (first submitted at the head). -/
structure AnonymizationGate where
  pending : List PendingReal
  next_handle : Nat
  deriving DecidableEq, Repr

/-- Modelled from the spec: the release condition of section 3,
`decoys_sent_since_reset >= target`. -/
def metTarget (c : DecoyBudgetCounter) : Bool :=
  decide (c.target ≤ (c.decoys_sent_since_reset : Int))

/-- Modelled from the spec: `submitReal(payload) -> handle` of section 4.2:
creates a counter with `target = max(MIN_DECOYS_PER_REAL_TX, NOISE_RATIO_TARGET)`
and queues the payload, not yet dispatched. -/
def submitReal (g : AnonymizationGate) (payload : String) : Nat × AnonymizationGate :=
  (g.next_handle,
   { pending := g.pending ++
       [{ handle := g.next_handle, payload := payload,
          counter := { decoys_sent_since_reset := 0,
                       target := max MIN_DECOYS_PER_REAL_TX NOISE_RATIO_TARGET } }],
     next_handle := g.next_handle + 1 })

/-- Modelled from the spec: the side effect of section 4.1, every emitted decoy
increments every live DecoyBudgetCounter by one. -/
def onDecoyEmitted (g : AnonymizationGate) : AnonymizationGate :=
  { g with pending := g.pending.map fun p =>
      { p with counter :=
          { p.counter with decoys_sent_since_reset := p.counter.decoys_sent_since_reset + 1 } } }

/-- Modelled from the spec: the queue scan of `pollReleasable`: the first entry
in FIFO order whose counter has met target, and the queue without it. -/
def takeReleasable : List PendingReal → Option (PendingReal × List PendingReal)
  | [] => none
  | p :: rest =>
    if metTarget p.counter then some (p, rest)
    else
      match takeReleasable rest with
      | none => none
      | some (q, rest') => some (q, p :: rest')

/-- Modelled from the spec: `pollReleasable() -> optional<payload>` of
section 4.2: returns and removes a payload whose counter has met target. -/
def pollReleasable (g : AnonymizationGate) : Option PendingReal × AnonymizationGate :=
  match takeReleasable g.pending with
  | none => (none, g)
  | some (p, rest) => (some p, { g with pending := rest })

/-- Modelled from the spec: what the Mimicry Controller hands to the Request
Dispatcher: a decoy, or a real payload released by the gate (kept with its
queue entry as it was at release). -/
inductive Handoff where
  | decoy
  | real (entry : PendingReal)
  deriving DecidableEq, Repr

/-- Modelled from the spec: the happenings that drive the controller of
section 4.5: an external caller submits a real transaction; a tick emits and
dispatches a heartbeat or storm decoy (steps 1 and 2); a tick polls the gate
and dispatches any releasable real payload (step 3). -/
inductive Event where
  | submit (payload : String)
  | decoy
  | poll
  deriving DecidableEq, Repr

/-- Modelled from the spec: the controller state the gate invariant is about:
the gate, and the sequence of handoffs to the Dispatcher so far. -/
structure Engine where
  gate : AnonymizationGate
  dispatched : List Handoff
  deriving DecidableEq, Repr

/-- Modelled from the spec: the controller at process start: nothing queued,
nothing dispatched. -/
def Engine.init : Engine :=
  { gate := { pending := [], next_handle := 0 }, dispatched := [] }

/-- Modelled from the spec: one controller step (sections 4.2 and 4.5). -/
def Engine.step (s : Engine) : Event → Engine
  | .submit payload => { s with gate := (submitReal s.gate payload).2 }
  | .decoy => { gate := onDecoyEmitted s.gate, dispatched := s.dispatched ++ [.decoy] }
  | .poll =>
    match pollReleasable s.gate with
    | (none, g) => { s with gate := g }
    | (some p, g) => { gate := g, dispatched := s.dispatched ++ [.real p] }

/-- Modelled from the spec: the controller state after a sequence of events,
starting from `Engine.init`. -/
def Engine.run (es : List Event) : Engine :=
  es.foldl Engine.step Engine.init

/-- Number of decoy dispatches in a stretch of events. -/
def countDecoys (es : List Event) : Nat :=
  es.countP fun e => e == Event.decoy

/-- Number of real submissions in a stretch of events. -/
def countSubmits : List Event → Nat
  | [] => 0
  | .submit _ :: es => countSubmits es + 1
  | _ :: es => countSubmits es

/-! ## Endpoint Pool and Request Dispatcher (sections 3, 4.3) -/

/-- C1: every validated constant of the shipped config.h is strictly positive,
and each of the three bounded pairs (heartbeat interval, storm intensity,
storm duration) has min <= max. -/
theorem shipped_config_passes_validation :
    0 < HEARTBEAT_INTERVAL_MIN ∧ 0 < HEARTBEAT_INTERVAL_MAX ∧
    0 < STORM_PROBABILITY ∧
    0 < STORM_INTENSITY_MIN ∧ 0 < STORM_INTENSITY_MAX ∧
    0 < STORM_DURATION_MIN ∧ 0 < STORM_DURATION_MAX ∧
    0 < NOISE_RATIO_TARGET ∧ 0 < MIN_DECOYS_PER_REAL_TX ∧
    0 < HTTP_TIMEOUT ∧ 0 < MAX_RETRY_ATTEMPTS ∧ 0 < MAX_CONCURRENT_REQUESTS ∧
    HEARTBEAT_INTERVAL_MIN ≤ HEARTBEAT_INTERVAL_MAX ∧
    STORM_INTENSITY_MIN ≤ STORM_INTENSITY_MAX ∧
    STORM_DURATION_MIN ≤ STORM_DURATION_MAX := by
  decide

/-- C3: with the shipped constants the anonymization target
max(MIN_DECOYS_PER_REAL_TX, NOISE_RATIO_TARGET) is 50 and dominates both
constants; the scenario values 5000, 45000 and 50 are the shipped values. -/
theorem shipped_anonymization_target :
    max MIN_DECOYS_PER_REAL_TX NOISE_RATIO_TARGET = 50 ∧
    MIN_DECOYS_PER_REAL_TX ≤ max MIN_DECOYS_PER_REAL_TX NOISE_RATIO_TARGET ∧
    NOISE_RATIO_TARGET ≤ max MIN_DECOYS_PER_REAL_TX NOISE_RATIO_TARGET ∧
    HEARTBEAT_INTERVAL_MIN = 5000 ∧ HEARTBEAT_INTERVAL_MAX = 45000 ∧
    MIN_DECOYS_PER_REAL_TX = 50 := by
  decide

/-- C4: exactly NETWORK_SEPOLIA is defined, so the preprocessor emits exactly
one definition of RPC_ENDPOINTS / RPC_ENDPOINT_COUNT, and it is the Sepolia
table: an ordered list of 4 (hence at least 1) endpoint URLs with count 4. -/
theorem shipped_network_selection :
    isDefined .NETWORK_SEPOLIA = true ∧ isDefined .NETWORK_GOERLI = false ∧
    isDefined .NETWORK_MUMBAI = false ∧ isDefined .NETWORK_BSC_TESTNET = false ∧
    (ifdefBlocks.filter isDefined) = [.NETWORK_SEPOLIA] ∧
    emittedDefinitions.length = 1 ∧
    emittedDefinitions =
      [(["https://rpc.sepolia.org", "https://ethereum-sepolia.publicnode.com",
         "https://rpc2.sepolia.org", "https://sepolia.gateway.tenderly.co"], 4)] ∧
    (∀ d ∈ emittedDefinitions, 1 ≤ d.1.length ∧ d.1.length = 4 ∧ d.2 = 4) := by
  refine ⟨rfl, rfl, rfl, rfl, rfl, rfl, rfl, ?_⟩
  intro d hd
  have h : d = (RPC_ENDPOINTS .NETWORK_SEPOLIA, RPC_ENDPOINT_COUNT .NETWORK_SEPOLIA) := by
    simpa [emittedDefinitions, ifdefBlocks, isDefined] using hd
  subst h
  exact ⟨by decide, rfl, rfl⟩

/-- C7: STORM_PROBABILITY is a valid percentage, and the storm-start
probability STORM_PROBABILITY / 100 as an exact rational lies in [0, 1] and
equals 3/10. -/
theorem storm_probability_valid :
    0 ≤ STORM_PROBABILITY ∧ STORM_PROBABILITY ≤ 100 ∧
    (0 : ℚ) ≤ (STORM_PROBABILITY : ℚ) / 100 ∧ (STORM_PROBABILITY : ℚ) / 100 ≤ 1 ∧
    (STORM_PROBABILITY : ℚ) / 100 = 3 / 10 := by
  refine ⟨by decide, by decide, ?_, ?_, ?_⟩ <;> norm_num [STORM_PROBABILITY]

/-- C8: for each of the four profiles the declared RPC_ENDPOINT_COUNT is the
length of its RPC_ENDPOINTS array (4, 3, 3, 3) and at least 1; every index
0 <= i < RPC_ENDPOINT_COUNT is in bounds, every listed URL is reached by such
an index, and the URLs of one profile are pairwise distinct. -/
theorem endpoint_count_matches_table (m : NetworkMacro) :
    ((RPC_ENDPOINTS m).length : Int) = RPC_ENDPOINT_COUNT m ∧
    1 ≤ RPC_ENDPOINT_COUNT m ∧
    (∀ i : Int, 0 ≤ i → i < RPC_ENDPOINT_COUNT m → ∃ u, endpointAt m i = some u) ∧
    (∀ u ∈ RPC_ENDPOINTS m,
      ∃ i : Int, 0 ≤ i ∧ i < RPC_ENDPOINT_COUNT m ∧ endpointAt m i = some u) ∧
    (RPC_ENDPOINTS m).Nodup ∧
    RPC_ENDPOINT_COUNT .NETWORK_SEPOLIA = 4 ∧ RPC_ENDPOINT_COUNT .NETWORK_GOERLI = 3 ∧
    RPC_ENDPOINT_COUNT .NETWORK_MUMBAI = 3 ∧ RPC_ENDPOINT_COUNT .NETWORK_BSC_TESTNET = 3 := by
  have hlen : ((RPC_ENDPOINTS m).length : Int) = RPC_ENDPOINT_COUNT m := by
    cases m <;> rfl
  refine ⟨hlen, by cases m <;> decide, ?_, ?_, by cases m <;> decide, rfl, rfl, rfl, rfl⟩
  · intro i h0 hi
    have hlt : i.toNat < (RPC_ENDPOINTS m).length := by omega
    refine ⟨(RPC_ENDPOINTS m)[i.toNat], ?_⟩
    simp [endpointAt, h0, List.getElem?_eq_getElem hlt]
  · intro u hu
    obtain ⟨k, hk, rfl⟩ := List.getElem_of_mem hu
    refine ⟨(k : Int), by omega, by omega, ?_⟩
    simp [endpointAt, List.getElem?_eq_getElem hk]

/-- C8 instance: index 3 of the Sepolia table is in bounds. -/
theorem endpoint_count_matches_table_witness :
    (0 : Int) ≤ 3 ∧ (3 : Int) < RPC_ENDPOINT_COUNT .NETWORK_SEPOLIA ∧
    ∃ u, endpointAt .NETWORK_SEPOLIA 3 = some u :=
  ⟨by decide, by decide,
    (endpoint_count_matches_table .NETWORK_SEPOLIA).2.2.1 3 (by decide) (by decide)⟩

/-- C9: for every storm intensity n and duration t inside the configured
bounds, the even spacing t / n (C integer division) satisfies
1 <= 25 <= t / n <= 266 < HEARTBEAT_INTERVAL_MIN. -/
theorem storm_spacing_bounds (n t : Int)
    (hn₁ : STORM_INTENSITY_MIN ≤ n) (hn₂ : n ≤ STORM_INTENSITY_MAX)
    (ht₁ : STORM_DURATION_MIN ≤ t) (ht₂ : t ≤ STORM_DURATION_MAX) :
    (1 : Int) ≤ 25 ∧ 25 ≤ Int.tdiv t n ∧ Int.tdiv t n ≤ 266 ∧
    266 < HEARTBEAT_INTERVAL_MIN ∧ Int.tdiv t n ≠ 0 ∧
    Int.tdiv t n < HEARTBEAT_INTERVAL_MIN := by
  simp only [STORM_INTENSITY_MIN, STORM_INTENSITY_MAX, STORM_DURATION_MIN,
    STORM_DURATION_MAX, HEARTBEAT_INTERVAL_MIN] at *
  rw [Int.tdiv_eq_ediv (by omega) (by omega)]
  have hlo : 25 ≤ t / n := Int.le_ediv_of_mul_le (by omega) (by nlinarith)
  have hhi : t / n < 267 := Int.ediv_lt_of_lt_mul (by omega) (by nlinarith)
  refine ⟨by decide, hlo, by omega, by decide, by omega, by omega⟩

/-- C9 instance: the longest storm at the lowest intensity, 8000 ms over 30 decoys. -/
theorem storm_spacing_bounds_witness :
    Int.tdiv 8000 30 = 266 ∧ Int.tdiv 8000 30 < HEARTBEAT_INTERVAL_MIN :=
  ⟨by decide,
    (storm_spacing_bounds 30 8000 (by decide) (by decide) (by decide) (by decide)).2.2.2.2.2⟩

/-- C10: in each of the four profiles MAX_RETRY_ATTEMPTS <= RPC_ENDPOINT_COUNT
(3 <= 4 for Sepolia, 3 <= 3 otherwise), so the attempts of one request can go
to pairwise distinct endpoints of the table; and MAX_RETRY_ATTEMPTS *
HTTP_TIMEOUT = 30000 lies in the 32-bit signed range. -/
theorem retry_budget_fits (m : NetworkMacro) :
    MAX_RETRY_ATTEMPTS ≤ RPC_ENDPOINT_COUNT m ∧
    (∃ route : List String, (route.length : Int) = MAX_RETRY_ATTEMPTS ∧ route.Nodup ∧
      ∀ u ∈ route, u ∈ RPC_ENDPOINTS m) ∧
    MAX_RETRY_ATTEMPTS = 3 ∧
    RPC_ENDPOINT_COUNT .NETWORK_SEPOLIA = 4 ∧ RPC_ENDPOINT_COUNT .NETWORK_GOERLI = 3 ∧
    RPC_ENDPOINT_COUNT .NETWORK_MUMBAI = 3 ∧ RPC_ENDPOINT_COUNT .NETWORK_BSC_TESTNET = 3 ∧
    MAX_RETRY_ATTEMPTS * HTTP_TIMEOUT = 30000 ∧
    INT32_MIN ≤ MAX_RETRY_ATTEMPTS * HTTP_TIMEOUT ∧
    MAX_RETRY_ATTEMPTS * HTTP_TIMEOUT ≤ INT32_MAX := by
  refine ⟨by cases m <;> decide, ⟨(RPC_ENDPOINTS m).take 3, ?_, ?_, ?_⟩,
    rfl, rfl, rfl, rfl, rfl, by decide, by decide, by decide⟩
  · cases m <;> rfl
  · cases m <;> decide
  · intro u hu
    exact List.mem_of_mem_take hu

/-! ## Lemmas on the gate and the controller -/

/-- Running one more event is one more controller step. -/
theorem run_snoc (es : List Event) (e : Event) :
    Engine.run (es ++ [e]) = (Engine.run es).step e := by
  simp [Engine.run, List.foldl_append]

/-- Decoy dispatches of two stretches of events add up. -/
theorem countDecoys_append (xs ys : List Event) :
    countDecoys (xs ++ ys) = countDecoys xs + countDecoys ys := by
  simp [countDecoys, List.countP_append]

/-- Submissions of two stretches of events add up. -/
theorem countSubmits_append (xs ys : List Event) :
    countSubmits (xs ++ ys) = countSubmits xs + countSubmits ys := by
  induction xs with
  | nil => simp [countSubmits]
  | cons e xs ih =>
    cases e <;> simp [countSubmits, ih]; omega

/-- What the queue scan returns: an entry of the queue that has met its target,
and a queue that holds nothing new and still holds every entry below target. -/
theorem takeReleasable_spec (l : List PendingReal) (p : PendingReal) (rest : List PendingReal)
    (h : takeReleasable l = some (p, rest)) :
    p ∈ l ∧ metTarget p.counter = true ∧ (∀ q ∈ rest, q ∈ l) ∧
    (∀ q ∈ l, metTarget q.counter = false → q ∈ rest) := by
  induction l generalizing p rest with
  | nil => simp [takeReleasable] at h
  | cons a l ih =>
    unfold takeReleasable at h
    by_cases ha : metTarget a.counter = true
    · simp only [ha, if_true, Option.some.injEq, Prod.mk.injEq] at h
      obtain ⟨rfl, rfl⟩ := h
      refine ⟨List.mem_cons_self _ _, ha, fun q hq => List.mem_cons_of_mem _ hq, ?_⟩
      intro q hq hm
      rcases List.mem_cons.mp hq with rfl | hq
      · simp [ha] at hm
      · exact hq
    · simp only [ha] at h
      cases hrec : takeReleasable l with
      | none => simp [hrec] at h
      | some pr =>
        obtain ⟨q, rest'⟩ := pr
        simp only [hrec, Bool.false_eq_true, if_false, Option.some.injEq, Prod.mk.injEq] at h
        obtain ⟨rfl, rfl⟩ := h
        obtain ⟨h1, h2, h3, h4⟩ := ih q rest' hrec
        refine ⟨List.mem_cons_of_mem _ h1, h2, ?_, ?_⟩
        · intro x hx
          rcases List.mem_cons.mp hx with rfl | hx
          · exact List.mem_cons_self _ _
          · exact List.mem_cons_of_mem _ (h3 x hx)
        · intro x hx hm
          rcases List.mem_cons.mp hx with rfl | hx
          · exact List.mem_cons_self _ _
          · exact List.mem_cons_of_mem _ (h4 x hx hm)


/-- A submission is pinned down by the number of submissions before it. -/
theorem split_unique (pre pre₂ post post₂ : List Event) (a b : String)
    (h : pre ++ Event.submit a :: post = pre₂ ++ Event.submit b :: post₂)
    (hc : countSubmits pre = countSubmits pre₂) :
    pre = pre₂ ∧ a = b ∧ post = post₂ := by
  induction pre generalizing pre₂ with
  | nil =>
    cases pre₂ with
    | nil => simpa using h
    | cons e t =>
      simp only [List.nil_append, List.cons_append, List.cons.injEq] at h
      obtain ⟨rfl, -⟩ := h
      simp [countSubmits] at hc
  | cons e t ih =>
    cases pre₂ with
    | nil =>
      simp only [List.nil_append, List.cons_append, List.cons.injEq] at h
      obtain ⟨rfl, -⟩ := h
      simp [countSubmits] at hc
    | cons e₂ t₂ =>
      simp only [List.cons_append, List.cons.injEq] at h
      obtain ⟨rfl, h⟩ := h
      have hc₂ : countSubmits t = countSubmits t₂ := by
        cases e <;> simpa [countSubmits] using hc
      obtain ⟨rfl, rfl, rfl⟩ := ih t₂ h hc₂
      exact ⟨rfl, rfl, rfl⟩

/-- What is known of every queued entry after a sequence of events: it was
submitted at some point of the sequence, its handle is the number of earlier
submissions, and its counter holds the decoys dispatched since. -/
theorem gate_invariant (es : List Event) :
    (Engine.run es).gate.next_handle = countSubmits es ∧
    ∀ p ∈ (Engine.run es).gate.pending, ∃ pre post,
      es = pre ++ Event.submit p.payload :: post ∧
      p.handle = countSubmits pre ∧
      p.counter.decoys_sent_since_reset = countDecoys post ∧
      p.counter.target = max MIN_DECOYS_PER_REAL_TX NOISE_RATIO_TARGET := by
  induction es using List.reverseRecOn with
  | nil => simp [Engine.run, Engine.init, countSubmits]
  | append_singleton es e ih =>
    obtain ⟨ihn, ihp⟩ := ih
    rw [run_snoc]
    cases e with
    | submit payload =>
      refine ⟨by simp [Engine.step, submitReal, ihn, countSubmits_append, countSubmits], ?_⟩
      intro p hp
      simp only [Engine.step, submitReal, List.mem_append, List.mem_singleton] at hp
      rcases hp with hp | rfl
      · obtain ⟨pre, post, h1, h2, h3, h4⟩ := ihp p hp
        refine ⟨pre, post ++ [Event.submit payload], ?_, h2, ?_, h4⟩
        · rw [h1]; simp
        · rw [h3, countDecoys_append]; simp [countDecoys]
      · exact ⟨es, [], rfl, ihn, by simp [countDecoys], rfl⟩
    | decoy =>
      refine ⟨by simp [Engine.step, onDecoyEmitted, ihn, countSubmits_append, countSubmits], ?_⟩
      intro p hp
      simp only [Engine.step, onDecoyEmitted, List.mem_map] at hp
      obtain ⟨q, hq, rfl⟩ := hp
      obtain ⟨pre, post, h1, h2, h3, h4⟩ := ihp q hq
      refine ⟨pre, post ++ [Event.decoy], ?_, h2, ?_, h4⟩
      · rw [h1]; simp
      · simp [h3, countDecoys_append, countDecoys]
    | poll =>
      have hsub : ∀ p ∈ ((Engine.run es).step Event.poll).gate.pending,
          p ∈ (Engine.run es).gate.pending := by
        intro p hp
        simp only [Engine.step, pollReleasable] at hp
        cases hrec : takeReleasable (Engine.run es).gate.pending with
        | none => simpa [hrec] using hp
        | some pr =>
          obtain ⟨q, rest⟩ := pr
          simp only [hrec] at hp
          exact (takeReleasable_spec _ _ _ hrec).2.2.1 p hp
      constructor
      · simp only [Engine.step, pollReleasable]
        cases hrec : takeReleasable (Engine.run es).gate.pending with
        | none => simp [ihn, countSubmits_append, countSubmits]
        | some pr => simp [ihn, countSubmits_append, countSubmits]
      · intro p hp
        obtain ⟨pre, post, h1, h2, h3, h4⟩ := ihp p (hsub p hp)
        refine ⟨pre, post ++ [Event.poll], ?_, h2, ?_, h4⟩
        · rw [h1]; simp
        · rw [h3, countDecoys_append]; simp [countDecoys]


/-- The decoys in the handoff sequence are the decoy events so far. -/
theorem dispatched_decoys (es : List Event) :
    (Engine.run es).dispatched.count Handoff.decoy = countDecoys es := by
  induction es using List.reverseRecOn with
  | nil => simp [Engine.run, Engine.init, countDecoys]
  | append_singleton es e ih =>
    rw [run_snoc, countDecoys_append, ← ih]
    cases e with
    | submit payload => simp [Engine.step, countDecoys]
    | decoy => simp [Engine.step, countDecoys]
    | poll =>
      unfold Engine.step
      rcases hpr : pollReleasable (Engine.run es).gate with ⟨o, g⟩
      cases o <;> simp [countDecoys]


/-- What the poll hands out was queued and has met its target. -/
theorem poll_release (es : List Event) (p : PendingReal)
    (h : (pollReleasable (Engine.run es).gate).1 = some p) :
    p ∈ (Engine.run es).gate.pending ∧ metTarget p.counter = true := by
  unfold pollReleasable at h
  cases hrec : takeReleasable (Engine.run es).gate.pending with
  | none => simp [hrec] at h
  | some pr =>
    obtain ⟨q, rest⟩ := pr
    simp only [hrec, Option.some.injEq] at h
    subst h
    exact ⟨(takeReleasable_spec _ _ _ hrec).1, (takeReleasable_spec _ _ _ hrec).2.1⟩

/-- A real payload in the handoffs after a poll was there before, or is the one
this poll released. -/
theorem step_poll_dispatched (s : Engine) (p : PendingReal)
    (h : Handoff.real p ∈ (s.step Event.poll).dispatched) :
    Handoff.real p ∈ s.dispatched ∨ (pollReleasable s.gate).1 = some p := by
  unfold Engine.step at h
  rcases hpr : pollReleasable s.gate with ⟨o, g⟩
  cases o with
  | none =>
    simp only [hpr] at h
    exact Or.inl h
  | some q =>
    simp only [hpr, List.mem_append, List.mem_singleton, Handoff.real.injEq] at h
    rcases h with h | rfl
    · exact Or.inl h
    · exact Or.inr rfl

/-- Every real payload in the handoff sequence got there at a poll, after its
own submission, with its counter at or above target. -/
theorem dispatched_invariant (es : List Event) (p : PendingReal)
    (h : Handoff.real p ∈ (Engine.run es).dispatched) :
    ∃ pre post rest, es = pre ++ Event.submit p.payload :: (post ++ Event.poll :: rest) ∧
      p.handle = countSubmits pre ∧
      p.counter.decoys_sent_since_reset = countDecoys post ∧
      p.counter.target = max MIN_DECOYS_PER_REAL_TX NOISE_RATIO_TARGET ∧
      metTarget p.counter = true ∧
      (pollReleasable (Engine.run (pre ++ Event.submit p.payload :: post)).gate).1 = some p := by
  induction es using List.reverseRecOn with
  | nil => simp [Engine.run, Engine.init] at h
  | append_singleton es e ih =>
    rw [run_snoc] at h
    have hold : Handoff.real p ∈ (Engine.run es).dispatched →
        ∃ pre post rest, es ++ [e] = pre ++ Event.submit p.payload :: (post ++ Event.poll :: rest) ∧
          p.handle = countSubmits pre ∧
          p.counter.decoys_sent_since_reset = countDecoys post ∧
          p.counter.target = max MIN_DECOYS_PER_REAL_TX NOISE_RATIO_TARGET ∧
          metTarget p.counter = true ∧
          (pollReleasable (Engine.run (pre ++ Event.submit p.payload :: post)).gate).1 = some p := by
      intro h'
      obtain ⟨pre, post, rest, h1, h2, h3, h4, h5, h6⟩ := ih h'
      exact ⟨pre, post, rest ++ [e], by rw [h1]; simp, h2, h3, h4, h5, h6⟩
    cases e with
    | submit payload => exact hold (by simpa [Engine.step] using h)
    | decoy => exact hold (by simpa [Engine.step] using h)
    | poll =>
      rcases step_poll_dispatched _ _ h with h' | h'
      · exact hold h'
      · obtain ⟨hmem, hmet⟩ := poll_release es p h'
        obtain ⟨pre, post, h1, h2, h3, h4⟩ := (gate_invariant es).2 p hmem
        exact ⟨pre, post, [], by rw [h1]; simp, h2, h3, h4, hmet, h1 ▸ h'⟩

/-- A submitted payload is still queued as long as fewer decoys than its
target have been dispatched since its submission. -/
theorem stays_pending (pre : List Event) (payload : String) (post : List Event)
    (h : (countDecoys post : Int) < max MIN_DECOYS_PER_REAL_TX NOISE_RATIO_TARGET) :
    ∃ p ∈ (Engine.run (pre ++ Event.submit payload :: post)).gate.pending,
      p.handle = countSubmits pre ∧ p.payload = payload ∧
      p.counter.decoys_sent_since_reset = countDecoys post ∧
      p.counter.target = max MIN_DECOYS_PER_REAL_TX NOISE_RATIO_TARGET := by
  induction post using List.reverseRecOn with
  | nil =>
    have : pre ++ [Event.submit payload] = pre ++ Event.submit payload :: [] := rfl
    rw [← this, run_snoc]
    refine ⟨{ handle := (Engine.run pre).gate.next_handle, payload := payload,
              counter := { decoys_sent_since_reset := 0,
                           target := max MIN_DECOYS_PER_REAL_TX NOISE_RATIO_TARGET } },
      ?_, (gate_invariant pre).1, rfl, by simp [countDecoys], rfl⟩
    · simp [Engine.step, submitReal]
  | append_singleton post e ih =>
    have hle : (countDecoys post : Int) < max MIN_DECOYS_PER_REAL_TX NOISE_RATIO_TARGET := by
      rw [countDecoys_append] at h
      push_cast at h
      omega
    obtain ⟨p, hp, h1, h2, h3, h4⟩ := ih hle
    have hs : pre ++ Event.submit payload :: (post ++ [e]) =
        (pre ++ Event.submit payload :: post) ++ [e] := by simp
    rw [hs, run_snoc]
    cases e with
    | submit pl =>
      refine ⟨p, ?_, h1, h2, ?_, h4⟩
      · simp [Engine.step, submitReal, hp]
      · rw [h3, countDecoys_append]; simp [countDecoys]
    | decoy =>
      refine ⟨{ p with counter := { p.counter with
          decoys_sent_since_reset := p.counter.decoys_sent_since_reset + 1 } }, ?_, h1, h2, ?_, h4⟩
      · simp only [Engine.step, onDecoyEmitted, List.mem_map]
        exact ⟨p, hp, rfl⟩
      · simp [h3, countDecoys_append, countDecoys]
    | poll =>
      have hnot : metTarget p.counter = false := by
        simp only [metTarget, decide_eq_false_iff_not, not_le, h3, h4]
        exact hle
      refine ⟨p, ?_, h1, h2, ?_, h4⟩
      · simp only [Engine.step, pollReleasable]
        cases hrec : takeReleasable (Engine.run (pre ++ Event.submit payload :: post)).gate.pending with
        | none => simpa using hp
        | some pr =>
          obtain ⟨q, rest⟩ := pr
          exact (takeReleasable_spec _ _ _ hrec).2.2.2 p hp hnot
      · rw [h3, countDecoys_append]; simp [countDecoys]

/-! ## Theorems about the gate -/

/-- C2: in every reachable state of the engine (1) whatever the gate's poll
hands out was submitted earlier and at least
max(MIN_DECOYS_PER_REAL_TX, NOISE_RATIO_TARGET) decoys were dispatched between
its submission and this poll; (2) every real payload in the sequence handed to
the Dispatcher was released by such a poll, with its counter at or above
target; (3) while fewer decoys than the target have been dispatched since its
submission a payload is still queued and has not been handed over; (4) in
particular with zero decoys it stays queued, whatever else happens; (5) the
decoy events counted here are exactly the decoys handed to the Dispatcher. -/
theorem real_release_needs_target_decoys :
    (∀ (es : List Event) (p : PendingReal),
      (pollReleasable (Engine.run es).gate).1 = some p →
      ∃ pre post, es = pre ++ Event.submit p.payload :: post ∧
        p.handle = countSubmits pre ∧
        p.counter.decoys_sent_since_reset = countDecoys post ∧
        p.counter.target = max MIN_DECOYS_PER_REAL_TX NOISE_RATIO_TARGET ∧
        max MIN_DECOYS_PER_REAL_TX NOISE_RATIO_TARGET ≤ (countDecoys post : Int)) ∧
    (∀ (es : List Event) (p : PendingReal),
      Handoff.real p ∈ (Engine.run es).dispatched →
      ∃ pre post rest,
        es = pre ++ Event.submit p.payload :: (post ++ Event.poll :: rest) ∧
        p.handle = countSubmits pre ∧
        (pollReleasable (Engine.run (pre ++ Event.submit p.payload :: post)).gate).1 = some p ∧
        p.counter.target ≤ (p.counter.decoys_sent_since_reset : Int) ∧
        max MIN_DECOYS_PER_REAL_TX NOISE_RATIO_TARGET ≤ (countDecoys post : Int)) ∧
    (∀ (pre : List Event) (payload : String) (post : List Event),
      (countDecoys post : Int) < max MIN_DECOYS_PER_REAL_TX NOISE_RATIO_TARGET →
      (∃ p ∈ (Engine.run (pre ++ Event.submit payload :: post)).gate.pending,
        p.handle = countSubmits pre ∧ p.payload = payload) ∧
      ∀ q, Handoff.real q ∈ (Engine.run (pre ++ Event.submit payload :: post)).dispatched →
        q.handle ≠ countSubmits pre) ∧
    (∀ (pre : List Event) (payload : String) (post : List Event),
      countDecoys post = 0 →
      (∃ p ∈ (Engine.run (pre ++ Event.submit payload :: post)).gate.pending,
        p.handle = countSubmits pre ∧ p.payload = payload ∧
        p.counter.decoys_sent_since_reset = 0) ∧
      ∀ q, Handoff.real q ∈ (Engine.run (pre ++ Event.submit payload :: post)).dispatched →
        q.handle ≠ countSubmits pre) ∧
    (∀ es : List Event,
      (Engine.run es).dispatched.count Handoff.decoy = countDecoys es) := by
  have part3 : ∀ (pre : List Event) (payload : String) (post : List Event),
      (countDecoys post : Int) < max MIN_DECOYS_PER_REAL_TX NOISE_RATIO_TARGET →
      ∀ q, Handoff.real q ∈ (Engine.run (pre ++ Event.submit payload :: post)).dispatched →
        q.handle ≠ countSubmits pre := by
    intro pre payload post hlt q hq heq
    obtain ⟨pre₂, post₂, rest, h1, h2, h3, h4, h5, -⟩ := dispatched_invariant _ q hq
    obtain ⟨-, -, hpost⟩ := split_unique _ _ _ _ _ _ h1 (by rw [← heq, h2])
    have hmet : q.counter.target ≤ (q.counter.decoys_sent_since_reset : Int) := by
      simpa [metTarget] using h5
    subst hpost
    rw [countDecoys_append] at hlt
    rw [h3, h4] at hmet
    push_cast at hlt
    omega
  refine ⟨?_, ?_, ?_, ?_, dispatched_decoys⟩
  · intro es p h
    obtain ⟨hmem, hmet⟩ := poll_release es p h
    obtain ⟨pre, post, h1, h2, h3, h4⟩ := (gate_invariant es).2 p hmem
    refine ⟨pre, post, h1, h2, h3, h4, ?_⟩
    have : p.counter.target ≤ (p.counter.decoys_sent_since_reset : Int) := by
      simpa [metTarget] using hmet
    rw [← h4, ← h3]
    exact this
  · intro es p h
    obtain ⟨pre, post, rest, h1, h2, h3, h4, h5, h6⟩ := dispatched_invariant es p h
    have : p.counter.target ≤ (p.counter.decoys_sent_since_reset : Int) := by
      simpa [metTarget] using h5
    refine ⟨pre, post, rest, h1, h2, h6, this, ?_⟩
    rw [← h4, ← h3]
    exact this
  · intro pre payload post hlt
    obtain ⟨p, hp, h1, h2, -, -⟩ := stays_pending pre payload post hlt
    exact ⟨⟨p, hp, h1, h2⟩, part3 pre payload post hlt⟩
  · intro pre payload post h0
    have hlt : (countDecoys post : Int) < max MIN_DECOYS_PER_REAL_TX NOISE_RATIO_TARGET := by
      rw [h0]; decide
    obtain ⟨p, hp, h1, h2, h3, -⟩ := stays_pending pre payload post hlt
    exact ⟨⟨p, hp, h1, h2, by rw [h3, h0]⟩, part3 pre payload post hlt⟩

/-- C2 instance: one submission, fifty decoys, one poll: the payload is handed
over at that poll with its counter at 50. -/
theorem real_release_needs_target_decoys_witness :
    Handoff.real { handle := 0, payload := "0xabc",
                   counter := { decoys_sent_since_reset := 50, target := 50 } } ∈
      (Engine.run (Event.submit "0xabc" :: (List.replicate 50 Event.decoy ++ [Event.poll]))).dispatched ∧
    ∃ pre post rest,
      Event.submit "0xabc" :: (List.replicate 50 Event.decoy ++ [Event.poll]) =
        pre ++ Event.submit "0xabc" :: (post ++ Event.poll :: rest) ∧
      (0 : Nat) = countSubmits pre ∧
      (50 : Int) ≤ (countDecoys post : Int) := by
  have hmem : Handoff.real { handle := 0, payload := "0xabc",
                             counter := { decoys_sent_since_reset := 50, target := 50 } } ∈
      (Engine.run (Event.submit "0xabc" :: (List.replicate 50 Event.decoy ++ [Event.poll]))).dispatched := by
    decide
  obtain ⟨pre, post, rest, h1, h2, -, -, h5⟩ :=
    real_release_needs_target_decoys.2.1 _ _ hmem
  exact ⟨hmem, pre, post, rest, h1, h2, h5⟩


/-! ## Theorems about the decoy generator -/

/-- C5: every delay produced by nextHeartbeatDelay lies between
HEARTBEAT_INTERVAL_MIN and HEARTBEAT_INTERVAL_MAX (5000 and 45000 ms), both
bounds included: each bound, and every delay between them, is produced. -/
theorem heartbeat_delay_in_bounds (r : Nat) :
    HEARTBEAT_INTERVAL_MIN ≤ nextHeartbeatDelay r ∧
    nextHeartbeatDelay r ≤ HEARTBEAT_INTERVAL_MAX ∧
    5000 ≤ nextHeartbeatDelay r ∧ nextHeartbeatDelay r ≤ 45000 ∧
    nextHeartbeatDelay 0 = HEARTBEAT_INTERVAL_MIN ∧
    nextHeartbeatDelay 40000 = HEARTBEAT_INTERVAL_MAX ∧
    (∀ d : Int, HEARTBEAT_INTERVAL_MIN ≤ d → d ≤ HEARTBEAT_INTERVAL_MAX →
      nextHeartbeatDelay (d - HEARTBEAT_INTERVAL_MIN).toNat = d) := by
  refine ⟨?_, ?_, ?_, ?_, by decide, by decide, ?_⟩
  all_goals simp only [nextHeartbeatDelay, HEARTBEAT_INTERVAL_MIN, HEARTBEAT_INTERVAL_MAX]
  all_goals omega

/-- C5 instance: the delay 12345 ms is inside the bounds and is produced. -/
theorem heartbeat_delay_in_bounds_witness :
    nextHeartbeatDelay (12345 - HEARTBEAT_INTERVAL_MIN).toNat = 12345 :=
  (heartbeat_delay_in_bounds 0).2.2.2.2.2.2 12345 (by decide) (by decide)

/-! ## Lemmas on the dispatcher -/

end GhostProtocol
